import Mathlib

/-!
Verification of the review-request search indexer
(`reviewboard/reviews/management/commands/index.py`).

The development shallowly embeds the comment-thread reconstruction
(`get_all_review_comments`), chain flattening (`flatten_comment`) and the
document-assembly part of `index_review_request`, together with the
per-request error handling of the batch loop (`Command.handle_noargs`).

Modelling conventions:
  * Django model rows become plain structures; nullable foreign keys become
    `Option Nat` (the referenced primary key).
  * Python dicts become insertion-ordered association lists
    (`List (Nat × α)`); `d[k] = v` is `ainsert`, `d[k].append(v)` on a
    multimap is `mmAppend`, membership is `acontains`.
  * Python exceptions (`KeyError`, failed `assert`) become
    `Except PyError`.
  * The unbounded recursion of `flatten_comment` is embedded with an
    explicit recursion-depth argument (`fuel`): a result `none` means the
    call did not return within that depth; termination of the Python
    function on an input is the proposition that some depth suffices.
  * `str.join`/`unicode(...)` become `pyJoin`/`unicodeStr`.
  * The two bulk ORM queries are modelled by a `DB` value holding the
    review rows and the review↔comment join rows in the order the
    database returns them (the source orders the join rows with an
    `order_by` executed by the database; the row list of `DB` is taken to
    be already in that fetch order).
-/

/-- Python `sep.join(xs)` on a list of strings. -/
def pyJoin (sep : String) : List String → String
  | [] => ""
  | [x] => x
  | x :: y :: rest => x ++ sep ++ pyJoin sep (y :: rest)

/-- A review row (`reviewboard.reviews.models.Review`).  Only the fields read
by the indexer are kept. -/
structure Review where
  pk : Nat
  public : Bool
  base_reply_to_id : Option Nat
  body_top_reply_to_id : Option Nat
  body_bottom_reply_to_id : Option Nat
  timestamp : Nat
  body_top : String
  body_bottom : String
deriving DecidableEq, Repr

/-- `Review.is_reply()`: a review is a reply iff `base_reply_to` is set. -/
def Review.is_reply (r : Review) : Bool :=
  r.base_reply_to_id.isSome

/-- A diff comment row (`reviewboard.reviews.models.Comment`). -/
structure Comment where
  pk : Nat
  text : String
  reply_to_id : Option Nat
deriving DecidableEq, Repr

/-- `Comment.is_reply()`: a comment is a reply iff `reply_to` is set. -/
def Comment.is_reply (c : Comment) : Bool :=
  c.reply_to_id.isSome

/-- One row of the review↔comment through table, as returned by the
`select_related` query: the owning review's id together with the comment
object. -/
structure JoinRow where
  review_id : Nat
  comment : Comment
deriving DecidableEq, Repr

/-- The relational data reachable from one review request: its review rows
(in fetch order) and the review↔comment join rows (in the order the
database returns them for the `order_by` used by the source). -/
structure DB where
  reviews : List Review
  joinRows : List JoinRow
deriving DecidableEq, Repr

/-- A Python exception raised during reconstruction: a failed `assert` or a
dict lookup `KeyError` (carrying the missing key). -/
inductive PyError where
  | assertionError : PyError
  | keyError : Nat → PyError
deriving DecidableEq, Repr

/-- Association-list lookup, modelling Python `d[k]` / `d.get(k)`. -/
def alookup (m : List (Nat × α)) (k : Nat) : Option α :=
  match m with
  | [] => none
  | (k', v) :: rest => if k' = k then some v else alookup rest k

/-- Association-list membership, modelling Python `k in d`. -/
def acontains (m : List (Nat × α)) (k : Nat) : Bool :=
  match m with
  | [] => false
  | (k', _) :: rest => k' = k || acontains rest k

/-- Association-list assignment `d[k] = v` (replaces in place, appends new
keys at the end, matching Python dict insertion order). -/
def ainsert (m : List (Nat × α)) (k : Nat) (v : α) : List (Nat × α) :=
  match m with
  | [] => [(k, v)]
  | (k', v') :: rest =>
    if k' = k then (k, v) :: rest else (k', v') :: ainsert rest k v

/-- Multimap append: `d.setdefault(k, []).append(v)` — the
`if k not in d: d[k] = [v] else: d[k].append(v)` pattern of the source. -/
def mmAppend (m : List (Nat × List α)) (k : Nat) (v : α) : List (Nat × List α) :=
  match m with
  | [] => [(k, [v])]
  | (k', vs) :: rest =>
    if k' = k then (k, vs ++ [v]) :: rest else (k', vs) :: mmAppend rest k v

/-- Multimap lookup defaulting to the empty list (a review or comment whose
reply-list attribute was initialised to `[]` and never appended to). -/
def mmGet (m : List (Nat × List α)) (k : Nat) : List α :=
  (alookup m k).getD []

/-- Flatten a comment chain, mirroring `flatten_comment` of the source:

    def flatten_comment(comment):
        text = comment.text
        for reply in comment._replies:
            text = text + "\n" + flatten_comment(reply)
        return text

`creps` gives each comment's `_replies` list (keyed by comment pk, as built
by `get_all_review_comments`); `fuel` bounds the recursion depth. -/
def flatten_comment (creps : Nat → List Comment) : Nat → Comment → Option String
  | 0, _ => none
  | fuel + 1, comment =>
    (creps comment.pk).foldlM
      (fun text reply =>
        (flatten_comment creps fuel reply).map (fun rt => text ++ "\n" ++ rt))
      comment.text

/-- State built by the first pass of `get_all_review_comments` over the
review rows (source lines 63–101). -/
structure Pass1 where
  public_reviews : List Review
  replies : List (Nat × List Review)
  reply_timestamps : List (Nat × Nat)
  body_top_replies : List (Nat × List Review)
  body_bottom_replies : List (Nat × List Review)
  reviews_id_map : List (Nat × Review)
deriving DecidableEq, Repr

/-- The empty first-pass state. -/
def Pass1.init : Pass1 :=
  ⟨[], [], [], [], [], []⟩

/-- Update of `reply_timestamps[parent_id]`: first reply stores its
timestamp, later replies take the max. -/
def tsUpdate (m : List (Nat × Nat)) (k ts : Nat) : List (Nat × Nat) :=
  match alookup m k with
  | none => ainsert m k ts
  | some old => ainsert m k (max old ts)

/-- One iteration of the first pass (source lines 63–101).  Reviews that are
not public contribute nothing (their `_body_top_replies`/`_body_bottom_replies`
initialisation is captured by `mmGet` defaulting to `[]`). -/
def pass1Step (st : Pass1) (review : Review) : Pass1 :=
  if review.public then
    let st := { st with public_reviews := st.public_reviews ++ [review] }
    let st :=
      match review.base_reply_to_id with
      | some parent_id =>
        { st with
          replies := mmAppend st.replies parent_id review
          reply_timestamps := tsUpdate st.reply_timestamps parent_id review.timestamp }
      | none => st
    let st := { st with reviews_id_map := ainsert st.reviews_id_map review.pk review }
    let st :=
      match review.body_top_reply_to_id with
      | some reply_id => { st with body_top_replies := mmAppend st.body_top_replies reply_id review }
      | none => st
    match review.body_bottom_reply_to_id with
    | some reply_id => { st with body_bottom_replies := mmAppend st.body_bottom_replies reply_id review }
    | none => st
  else st

/-- The whole first pass over the fetched review rows. -/
def pass1Of (db : DB) : Pass1 :=
  db.reviews.foldl pass1Step Pass1.init

/-- A reconstructed entry (source lines 111–117): one per top-level public
review, carrying the review, its `diff_comments` bucket and a timestamp. -/
structure Entry where
  review : Review
  diff_comments : List Comment
  timestamp : Nat
deriving DecidableEq, Repr

/-- Replace the `i`-th element of a list by `f` of it (mutation of the entry
dict a map value points to). -/
def listModify (l : List α) (i : Nat) (f : α → α) : List α :=
  match l, i with
  | [], _ => []
  | x :: rest, 0 => f x :: rest
  | x :: rest, n + 1 => x :: listModify rest n f

/-- Entry construction (source lines 109–119): one entry per public
non-reply review, in fetch order; `reviews_entry_map` maps the review pk to
the entry's position. -/
def buildEntriesStep (st : List Entry × List (Nat × Nat)) (review : Review) :
    List Entry × List (Nat × Nat) :=
  if ¬ review.is_reply then
    (st.1 ++ [⟨review, [], review.timestamp⟩], ainsert st.2 review.pk st.1.length)
  else st

/-- Entry construction folded over the public reviews. -/
def buildEntries (public_reviews : List Review) : List Entry × List (Nat × Nat) :=
  public_reviews.foldl buildEntriesStep ([], [])

/-- First key of a body-reply multimap that is missing from
`reviews_id_map`: linking up the body replies (source lines 122–125) does
`reviews_id_map[reply_id]`, which raises `KeyError` for such a key. -/
def linkFailure (m : List (Nat × List Review)) (idmap : List (Nat × Review)) : Option Nat :=
  match m with
  | [] => none
  | (k, _) :: rest => if ¬ acontains idmap k then some k else linkFailure rest idmap

/-- The join rows actually fetched: the query filters on
`review__in=review_ids` where `review_ids` are the public review pks
(source line 142). -/
def objsOf (db : DB) : List JoinRow :=
  db.joinRows.filter (fun jr => acontains (pass1Of db).reviews_id_map jr.review_id)

/-- First pass over the join rows (source lines 153–156): `comment_map`
keyed by comment pk (later rows overwrite earlier ones, like the source's
dict assignment). -/
def comment_mapOf (db : DB) : List (Nat × Comment) :=
  (objsOf db).foldl (fun m jr => ainsert m jr.comment.pk jr.comment) []

/-- Initial `_replies` state from the same pass: every fetched comment's
reply list starts empty. -/
def crepsInit (db : DB) : List (Nat × List Comment) :=
  (objsOf db).foldl (fun m jr => ainsert m jr.comment.pk ([] : List Comment)) []

/-- One iteration of the second pass over the join rows (source lines
158–183).  The state is the entry list together with the per-comment reply
lists. -/
def pass2Step (idmap : List (Nat × Review)) (emap : List (Nat × Nat))
    (cmap : List (Nat × Comment))
    (st : List Entry × List (Nat × List Comment)) (jr : JoinRow) :
    Except PyError (List Entry × List (Nat × List Comment)) :=
  let comment := jr.comment
  match alookup idmap jr.review_id with
  | none => .error .assertionError
  | some parent_review =>
    match parent_review.base_reply_to_id with
    | some base_id =>
      if acontains emap jr.review_id then .error .assertionError
      else if ¬ acontains emap base_id then .error .assertionError
      else
        match comment.reply_to_id with
        | some reply_to_id =>
          if acontains cmap reply_to_id then
            .ok (st.1, mmAppend st.2 reply_to_id comment)
          else .error (.keyError reply_to_id)
        | none => .ok st
    | none =>
      if parent_review.public then
        match alookup emap jr.review_id with
        | none => .error .assertionError
        | some idx =>
          .ok (listModify st.1 idx
                 (fun e => { e with diff_comments := e.diff_comments ++ [comment] }),
               st.2)
      else .ok st

/-- The second pass over all join rows, stopping at the first raised
exception. -/
def pass2 (idmap : List (Nat × Review)) (emap : List (Nat × Nat))
    (cmap : List (Nat × Comment)) :
    List Entry × List (Nat × List Comment) → List JoinRow →
    Except PyError (List Entry × List (Nat × List Comment))
  | st, [] => .ok st
  | st, jr :: rest =>
    match pass2Step idmap emap cmap st jr with
    | .error e => .error e
    | .ok st' => pass2 idmap emap cmap st' rest

/-- Everything `get_all_review_comments` leaves behind: the returned entry
list plus the reply structures it attached to the fetched review and
comment objects (read later by `index_review_request`). -/
structure ReconResult where
  entries : List Entry
  replies : List (Nat × List Review)
  reply_timestamps : List (Nat × Nat)
  body_top_replies : List (Nat × List Review)
  body_bottom_replies : List (Nat × List Review)
  comment_replies : List (Nat × List Comment)
deriving DecidableEq, Repr

/-- The full `get_all_review_comments` (source lines 36–185): first pass
over the reviews, entry construction, body-reply link-up (top list first,
then bottom, as in the source tuple), then the two passes over the join
rows. -/
def get_all_review_comments (db : DB) : Except PyError ReconResult :=
  let p1 := pass1Of db
  let eb := buildEntries p1.public_reviews
  match linkFailure p1.body_top_replies p1.reviews_id_map with
  | some k => .error (.keyError k)
  | none =>
    match linkFailure p1.body_bottom_replies p1.reviews_id_map with
    | some k => .error (.keyError k)
    | none =>
      match pass2 p1.reviews_id_map eb.2 (comment_mapOf db) (eb.1, crepsInit db) (objsOf db) with
      | .error e => .error e
      | .ok st =>
        .ok { entries := st.1
              replies := p1.replies
              reply_timestamps := p1.reply_timestamps
              body_top_replies := p1.body_top_replies
              body_bottom_replies := p1.body_bottom_replies
              comment_replies := st.2 }

/-- A review request row, with the scalar fields read by
`index_review_request`.  The relational side (reviews, comments) is the
accompanying `DB`. -/
structure Submitter where
  username : String
  full_name : String
deriving DecidableEq, Repr

/-- One file-diff row of a diff set (`source_file`/`dest_file` path
strings; Python falsiness of the empty string is significant). -/
structure FileDiff where
  source_file : String
  dest_file : String
deriving DecidableEq, Repr

/-- One diff set: its file-diff rows in fetch order. -/
structure DiffSet where
  files : List FileDiff
deriving DecidableEq, Repr

/-- The scalar part of a `ReviewRequest` row. -/
structure ReviewRequest where
  id : Nat
  summary : String
  description : String
  testing_done : String
  bugs_closed : String
  changenum : Option Nat
  submitter : Submitter
  diffset_history : Option (List DiffSet)
deriving DecidableEq, Repr

/-- Split a character list at every occurrence of `sep`, Python
`s.split(sep)` for a one-character separator (always returns at least one
piece; adjacent separators yield empty pieces). -/
def splitChar (sep : Char) : List Char → List (List Char)
  | [] => [[]]
  | c :: rest =>
    match splitChar sep rest with
    | [] => [[]]
    | piece :: pieces =>
      if c = sep then [] :: piece :: pieces else (c :: piece) :: pieces

/-- Join character-list pieces with a single separator character, Python
`sep.join(pieces)`. -/
def joinChar (sep : Char) : List (List Char) → List Char
  | [] => []
  | [piece] => piece
  | piece :: next :: rest => piece ++ sep :: joinChar sep (next :: rest)

/-- The `bug` field value (source line 320):
`' '.join(request.bugs_closed.split(','))`. -/
def bugsField (bugs_closed : String) : String :=
  ⟨joinChar ' ' (splitChar ',' bugs_closed.data)⟩

/-- Python `unicode(request.changenum)`: `None` prints as `"None"`. -/
def unicodeStr : Option Nat → String
  | none => "None"
  | some n => toString n

/-- Python truthiness of `request.changenum` (`if request.changenum:`):
`None` and `0` are falsy. -/
def changenumTruthy : Option Nat → Bool
  | none => false
  | some n => n ≠ 0

/-- The file-path gathering loop (source lines 349–356): source and
destination paths of every file diff of every diff set, skipping falsy
(empty) paths, in traversal order. -/
def filesOf (req : ReviewRequest) : List String :=
  match req.diffset_history with
  | none => []
  | some diffsets =>
    diffsets.foldl
      (fun files ds =>
        ds.files.foldl
          (fun files fd =>
            let files := if fd.source_file ≠ "" then files ++ [fd.source_file] else files
            if fd.dest_file ≠ "" then files ++ [fd.dest_file] else files)
          files)
      []

/-- The `file` field value (source line 357): `'\n'.join(set(files))`.
Python's `set` iterates in an unspecified order; the embedding fixes the
deterministic order of `List.dedup` — every claim about this field concerns
only which paths occur and how often, never their order. -/
def aggregateFiles (req : ReviewRequest) : String :=
  pyJoin "\n" (filesOf req).dedup

/-- One iteration of the comment-flattening loop of `index_review_request`
(source lines 336–342), accumulating into `comment_text`.  `res` provides
the `_body_top_replies`/`_body_bottom_replies` attached to the entry's
review, `creps` the `_replies` lists of the comments, and `fuel` the
recursion depth available to `flatten_comment`. -/
def flattenEntryStep (fuel : Nat) (res : ReconResult) (creps : Nat → List Comment)
    (comment_text : String) (entry : Entry) : Option String :=
  let review := entry.review
  let comment_text := pyJoin "\n" [comment_text, review.body_top, review.body_bottom]
  let review_top_replies :=
    pyJoin "\n" ((mmGet res.body_top_replies review.pk).map
      (fun x => pyJoin "\n" [x.body_top, x.body_bottom]))
  let review_bot_replies :=
    pyJoin "\n" ((mmGet res.body_bottom_replies review.pk).map
      (fun x => pyJoin "\n" [x.body_top, x.body_bottom]))
  let comment_text := pyJoin "\n" [comment_text, review_top_replies, review_bot_replies]
  (entry.diff_comments.mapM (flatten_comment creps fuel)).map
    (fun flats => comment_text ++ pyJoin "\n" flats)

/-- The whole comment-flattening loop: `comment_text` starts empty and each
entry's contribution is appended in turn. -/
def comment_text_of (fuel : Nat) (res : ReconResult) : Option String :=
  res.entries.foldlM (flattenEntryStep fuel res (mmGet res.comment_replies)) ""

/-- The document built by `index_review_request` (source lines 293–377),
one field per `doc.add` call.  `changenum` is `none` when the field was not
added. -/
structure Document where
  id : String
  summary : String
  changenum : Option String
  bug : String
  author : String
  username : String
  comment : String
  file : String
  text : String
deriving DecidableEq, Repr

/-- Document assembly of `index_review_request`: `none` when
`get_all_review_comments` raises or `flatten_comment` does not return within
`fuel`.  `db` holds the request's reviews and comment join rows. -/
def index_review_request (fuel : Nat) (db : DB) (req : ReviewRequest) : Option Document :=
  match get_all_review_comments db with
  | .error _ => none
  | .ok res =>
    (comment_text_of fuel res).map (fun comment_text =>
      let bugs := bugsField req.bugs_closed
      let name := pyJoin " " [req.submitter.username, req.submitter.full_name]
      let aggregate_files := aggregateFiles req
      { id := toString req.id
        summary := req.summary
        changenum := if changenumTruthy req.changenum then some (unicodeStr req.changenum) else none
        bug := bugs
        author := name
        username := req.submitter.username
        comment := comment_text
        file := aggregate_files
        text := pyJoin "\n" [req.summary, req.description, unicodeStr req.changenum,
                             req.testing_done, bugs, name, comment_text, aggregate_files] })

/-- The per-request loop of `Command.handle_noargs` (source lines 263–281):
each request is indexed inside a `try`; an exception is caught and a line
`'Error indexing ReviewRequest #%d: %s'` is written to stderr, and the loop
moves on.  `indexFn` abstracts `self.index_review_request` together with
the backend writer; the result collects the documents added and the error
lines logged. -/
def handleRequests (indexFn : ReviewRequest → Except String Document)
    (requests : List ReviewRequest) : List Document × List String :=
  requests.foldl
    (fun (st : List Document × List String) request =>
      match indexFn request with
      | .ok doc => (st.1 ++ [doc], st.2)
      | .error e =>
        (st.1, st.2 ++ ["Error indexing ReviewRequest #" ++ toString request.id ++ ": " ++ e]))
    ([], [])

/-- Folding the reply list short-circuits to `none` as soon as one reply's
flattening does not return within the available depth. -/
lemma foldlM_flatten_none (creps : Nat → List Comment) (fuel : Nat) (b : Comment)
    (hb : flatten_comment creps fuel b = none) :
    ∀ (l : List Comment) (init : String), b ∈ l →
      l.foldlM
        (fun text reply =>
          (flatten_comment creps fuel reply).map (fun rt => text ++ "\n" ++ rt))
        init = none := by
  intro l
  induction l with
  | nil => intro init h; cases h
  | cons a rest ih =>
    intro init hmem
    rw [List.foldlM_cons]
    cases hfa : flatten_comment creps fuel a with
    | none => simp
    | some rt =>
      simp only [hfa, Option.map_some, Option.bind_eq_bind, Option.some_bind]
      rcases List.mem_cons.mp hmem with h | h
      · subst h; rw [hfa] at hb; cases hb
      · exact ih _ h

/-- On a two-cycle (`b` in `a`'s reply list and `a` in `b`'s), no recursion
depth makes `flatten_comment` return on either comment. -/
lemma two_cycle_flatten_none (creps : Nat → List Comment) (a b : Comment)
    (hab : b ∈ creps a.pk) (hba : a ∈ creps b.pk) :
    ∀ fuel, flatten_comment creps fuel a = none ∧ flatten_comment creps fuel b = none := by
  intro fuel
  induction fuel with
  | zero => exact ⟨rfl, rfl⟩
  | succ n ih =>
    constructor
    · show (creps a.pk).foldlM _ a.text = none
      exact foldlM_flatten_none creps n b ih.2 _ _ hab
    · show (creps b.pk).foldlM _ b.text = none
      exact foldlM_flatten_none creps n a ih.1 _ _ hba

/-- Comment `A` of the two-cycle of the specification's §3 scenario. -/
def cycA : Comment := ⟨1, "A", some 2⟩

/-- Comment `B` of the two-cycle. -/
def cycB : Comment := ⟨2, "B", some 1⟩

/-- Reply lists realising the two-cycle: `A`'s replies contain `B` and
`B`'s replies contain `A`. -/
def cycReps : Nat → List Comment :=
  fun pk => if pk = 1 then [cycB] else if pk = 2 then [cycA] else []

/-- C1 counterexample: on the concrete 2-cycle, `flatten_comment` never
returns — no recursion depth suffices and no error value is ever produced,
so it does not "detect the revisit and fail deterministically"; the only
abort in CPython comes from the interpreter's recursion limit. -/
theorem flatten_comment_cycle_counterexample :
    ¬ ∃ fuel, (flatten_comment cycReps fuel cycA).isSome = true := by
  rintro ⟨fuel, h⟩
  rw [(two_cycle_flatten_none cycReps cycA cycB (by decide) (by decide) fuel).1] at h
  cases h

/-- C1 (amended): `flatten_comment` performs no visited-id tracking.  On
every input whose reply lists contain a two-cycle, the recursion never
returns, whatever recursion depth is allowed; it does not terminate with an
explicit cycle error. -/
theorem flatten_comment_cycle_diverges (creps : Nat → List Comment) (a b : Comment)
    (hab : b ∈ creps a.pk) (hba : a ∈ creps b.pk) :
    ∀ fuel, flatten_comment creps fuel a = none :=
  fun fuel => (two_cycle_flatten_none creps a b hab hba fuel).1

/-- C1 witness: the amended divergence theorem applied to the concrete
2-cycle. -/
theorem flatten_comment_cycle_diverges_witness :
    flatten_comment cycReps 5 cycB = none :=
  flatten_comment_cycle_diverges cycReps cycB cycA (by decide) (by decide) 5

/-- C6: on a comment whose reply list is exactly `[r1, r2]`, with both
replies childless, `flatten_comment` returns the depth-first pre-order
concatenation `text + "\n" + r1.text + "\n" + r2.text`, for every recursion
depth of at least 2. -/
theorem flatten_comment_two_direct_replies (creps : Nat → List Comment)
    (c r1 r2 : Comment) (h1 : creps c.pk = [r1, r2]) (h2 : creps r1.pk = [])
    (h3 : creps r2.pk = []) (fuel : Nat) (hf : 2 ≤ fuel) :
    flatten_comment creps fuel c =
      some (c.text ++ "\n" ++ r1.text ++ "\n" ++ r2.text) := by
  obtain ⟨k, rfl⟩ : ∃ k, fuel = k + 2 := ⟨fuel - 2, by omega⟩
  show (creps c.pk).foldlM _ c.text = _
  have hr1 : flatten_comment creps (k + 1) r1 = some r1.text := by
    show (creps r1.pk).foldlM _ r1.text = _
    rw [h2]; rfl
  have hr2 : flatten_comment creps (k + 1) r2 = some r2.text := by
    show (creps r2.pk).foldlM _ r2.text = _
    rw [h3]; rfl
  rw [h1]
  simp [List.foldlM_cons, hr1, hr2]

/-- Leaf reply `r1` for the C6 witness. -/
def wR1 : Comment := ⟨2, "r1", some 1⟩

/-- Leaf reply `r2` for the C6 witness. -/
def wR2 : Comment := ⟨3, "r2", some 1⟩

/-- Root comment for the C6 witness. -/
def wC : Comment := ⟨1, "c", none⟩

/-- Reply lists for the C6 witness: `wC`'s direct replies are `[wR1, wR2]`,
both childless. -/
def wReps : Nat → List Comment :=
  fun pk => if pk = 1 then [wR1, wR2] else []

/-- C6 witness: the two-reply flattening theorem at a concrete chain. -/
theorem flatten_comment_two_direct_replies_witness :
    flatten_comment wReps 2 wC = some ("c" ++ "\n" ++ "r1" ++ "\n" ++ "r2") :=
  flatten_comment_two_direct_replies wReps wC wR1 wR2 rfl rfl rfl 2 (by decide)

/-- Splitting always yields at least one piece, like Python `str.split`. -/
lemma splitChar_ne_nil (sep : Char) (l : List Char) : splitChar sep l ≠ [] := by
  cases l with
  | nil => simp [splitChar]
  | cons c rest =>
    simp only [splitChar]
    cases splitChar sep rest with
    | nil => simp
    | cons h t =>
      by_cases hc : c = sep <;> simp [hc]

/-- Prepending a character to the first piece prepends it to the join. -/
lemma joinChar_cons_head (sep : Char) (c : Char) (h : List Char) (t : List (List Char)) :
    joinChar sep ((c :: h) :: t) = c :: joinChar sep (h :: t) := by
  cases t <;> simp [joinChar]

/-- Joining with a space what was split at commas replaces every comma by a
space. -/
lemma joinChar_splitChar (l : List Char) :
    joinChar ' ' (splitChar ',' l) = l.map (fun c => if c = ',' then ' ' else c) := by
  induction l with
  | nil => rfl
  | cons c rest ih =>
    simp only [splitChar]
    cases hs : splitChar ',' rest with
    | nil => exact absurd hs (splitChar_ne_nil ',' rest)
    | cons h t =>
      rw [hs] at ih
      by_cases hc : c = ','
      · simp only [hc, if_pos rfl, List.map_cons, if_pos rfl]
        simpa [joinChar] using ih
      · simp only [if_neg hc, List.map_cons, if_neg hc, joinChar_cons_head]
        rw [ih]

/-- The specification's description of the bug field: the bug list with
every comma replaced by a space. -/
def commaToSpace (s : String) : String :=
  ⟨s.data.map (fun c => if c = ',' then ' ' else c)⟩

/-- C7: the document's `bug` field is the comma-separated bug list with
each comma replaced by a space (whenever a document is produced at all),
and in particular the bug list `"123,456"` yields `"123 456"`. -/
theorem bug_field_replaces_commas :
    (∀ fuel db req,
      (index_review_request fuel db req).map Document.bug =
        (index_review_request fuel db req).map (fun _ => bugsField req.bugs_closed)) ∧
    (∀ s, bugsField s = commaToSpace s) ∧
    bugsField "123,456" = "123 456" := by
  refine ⟨?_, ?_, by decide⟩
  · intro fuel db req
    unfold index_review_request
    cases get_all_review_comments db with
    | error e => rfl
    | ok res =>
      cases hct : comment_text_of fuel res <;> simp [hct]
  · intro s
    unfold bugsField commaToSpace
    exact congrArg String.mk (joinChar_splitChar s.data)

/-- A review request whose diff-set history has two diff sets both touching
`main.cc`. -/
def reqTwoDiffsets : ReviewRequest :=
  ⟨7, "s", "d", "t", "", none, ⟨"u", "U N"⟩,
   some [⟨[⟨"main.cc", "main.cc"⟩]⟩, ⟨[⟨"main.cc", "other.h"⟩]⟩]⟩

/-- C8: the `file` field is the newline-join of the de-duplicated gathered
source/destination paths; the de-duplicated list has no duplicates and
keeps exactly the paths gathered from the diff sets, each exactly once; in
particular `"main.cc"` occurs once for the request whose two diff sets both
touch it. -/
theorem file_field_dedups_paths :
    (∀ fuel db req,
      (index_review_request fuel db req).map Document.file =
        (index_review_request fuel db req).map (fun _ => pyJoin "\n" (filesOf req).dedup)) ∧
    (∀ req, ((filesOf req).dedup).Nodup) ∧
    (∀ req p, ((filesOf req).dedup).count p = if p ∈ filesOf req then 1 else 0) ∧
    ((filesOf reqTwoDiffsets).dedup).count "main.cc" = 1 := by
  refine ⟨?_, fun req => List.nodup_dedup _, fun req p => List.count_dedup _ _, by decide⟩
  intro fuel db req
  unfold index_review_request
  cases get_all_review_comments db with
  | error e => rfl
  | ok res =>
    cases hct : comment_text_of fuel res <;> simp [hct, aggregateFiles]

/-- C10: the dedicated `changenum` field is present exactly when the change
number is truthy (non-null and non-zero), while the catch-all `text` field
always includes the string form of the change number — between the
description and the testing notes — even when it renders as `"None"` or
`"0"`. -/
theorem changenum_in_text_but_conditional_field :
    (∀ fuel db req,
      (index_review_request fuel db req).map Document.changenum =
        (index_review_request fuel db req).map
          (fun _ => if changenumTruthy req.changenum then some (unicodeStr req.changenum) else none)) ∧
    (∀ fuel db req,
      (index_review_request fuel db req).map Document.text =
        (index_review_request fuel db req).map
          (fun doc => req.summary ++ "\n" ++ req.description ++ "\n" ++
            unicodeStr req.changenum ++ "\n" ++ req.testing_done ++ "\n" ++
            doc.bug ++ "\n" ++ doc.author ++ "\n" ++ doc.comment ++ "\n" ++ doc.file)) ∧
    unicodeStr none = "None" ∧ unicodeStr (some 0) = "0" ∧
    changenumTruthy none = false ∧ changenumTruthy (some 0) = false := by
  refine ⟨?_, ?_, rfl, rfl, rfl, rfl⟩
  · intro fuel db req
    unfold index_review_request
    cases get_all_review_comments db with
    | error e => rfl
    | ok res =>
      cases hct : comment_text_of fuel res <;> simp [hct]
  · intro fuel db req
    unfold index_review_request
    cases get_all_review_comments db with
    | error e => rfl
    | ok res =>
      cases hct : comment_text_of fuel res <;>
        simp [hct, pyJoin, String.append_assoc]

/-- The error line logged for a failed request (source line 280). -/
def errorLine (request : ReviewRequest) (e : String) : String :=
  "Error indexing ReviewRequest #" ++ toString request.id ++ ": " ++ e

/-- Accumulator form of the batch loop used for the induction. -/
lemma handleRequests_foldl (indexFn : ReviewRequest → Except String Document) :
    ∀ (requests : List ReviewRequest) (docs : List Document) (logs : List String),
      requests.foldl
        (fun (st : List Document × List String) request =>
          match indexFn request with
          | .ok doc => (st.1 ++ [doc], st.2)
          | .error e => (st.1, st.2 ++ [errorLine request e]))
        (docs, logs) =
      (docs ++ requests.filterMap (fun r => (indexFn r).toOption),
       logs ++ requests.filterMap (fun r =>
         match indexFn r with
         | .ok _ => none
         | .error e => some (errorLine r e))) := by
  intro requests
  induction requests with
  | nil => intro docs logs; simp
  | cons r rest ih =>
    intro docs logs
    cases hr : indexFn r with
    | ok doc => simp [List.foldl_cons, hr, ih, Except.toOption]
    | error e => simp [List.foldl_cons, hr, ih, Except.toOption]

/-- C9: the per-request loop is exception-isolating.  Every request in the
batch is processed: the successful ones contribute exactly their documents
(in order), every failing one contributes exactly one logged line with its
request id and message, and a failure never prevents later requests from
being indexed. -/
theorem handle_noargs_continues_after_failure :
    ∀ (indexFn : ReviewRequest → Except String Document) (requests : List ReviewRequest),
      handleRequests indexFn requests =
        (requests.filterMap (fun r => (indexFn r).toOption),
         requests.filterMap (fun r =>
           match indexFn r with
           | .ok _ => none
           | .error e => some (errorLine r e))) := by
  intro indexFn requests
  have h := handleRequests_foldl indexFn requests [] []
  simpa [handleRequests, errorLine] using h

/-- Joining a two-element list. -/
lemma pyJoin_pair (s a b : String) : pyJoin s [a, b] = a ++ s ++ b := rfl

/-- Joining a three-element list. -/
lemma pyJoin_triple (s a b c : String) : pyJoin s [a, b, c] = a ++ s ++ (b ++ s ++ c) := rfl

/-- C5: one iteration of the comment-flattening loop appends, to the
accumulated text and in this order: the entry review's body-top, its
body-bottom, each body-top reply's top and bottom, each body-bottom reply's
top and bottom, and finally the flattened chain of each top-level diff
comment in fetch order (whenever all the chain flattenings return). -/
theorem flattenEntry_concatenation_order (fuel : Nat) (res : ReconResult)
    (creps : Nat → List Comment) (acc : String) (entry : Entry) :
    flattenEntryStep fuel res creps acc entry =
      (entry.diff_comments.mapM (flatten_comment creps fuel)).map
        (fun flats =>
          acc ++ "\n" ++ entry.review.body_top ++ "\n" ++ entry.review.body_bottom ++ "\n" ++
          pyJoin "\n" ((mmGet res.body_top_replies entry.review.pk).map
            (fun x => x.body_top ++ "\n" ++ x.body_bottom)) ++ "\n" ++
          pyJoin "\n" ((mmGet res.body_bottom_replies entry.review.pk).map
            (fun x => x.body_top ++ "\n" ++ x.body_bottom)) ++
          pyJoin "\n" flats) := by
  unfold flattenEntryStep
  cases hm : entry.diff_comments.mapM (flatten_comment creps fuel) with
  | none => simp [hm]
  | some flats =>
    simp only [hm, Option.map_some, Option.some.injEq]
    simp [pyJoin_pair, pyJoin_triple, String.append_assoc]

/-- If some row of the second pass fails whatever the accumulated state,
the whole pass raises. -/
lemma pass2_error_of_mem (idmap : List (Nat × Review)) (emap : List (Nat × Nat))
    (cmap : List (Nat × Comment)) (jr : JoinRow)
    (hfail : ∀ st, ∃ e, pass2Step idmap emap cmap st jr = .error e) :
    ∀ (l : List JoinRow) (st : List Entry × List (Nat × List Comment)),
      jr ∈ l → ∃ e, pass2 idmap emap cmap st l = .error e := by
  intro l
  induction l with
  | nil => intro st h; cases h
  | cons a rest ih =>
    intro st hmem
    cases ha : pass2Step idmap emap cmap st a with
    | error e => exact ⟨e, by simp [pass2, ha]⟩
    | ok st' =>
      rcases List.mem_cons.mp hmem with h | h
      · subst h
        obtain ⟨e, he⟩ := hfail st
        rw [he] at ha
        cases ha
      · obtain ⟨e, he⟩ := ih st' h
        exact ⟨e, by simp [pass2, ha, he]⟩

/-- Top-level public review of the orphaned-reply scenario. -/
def vT : Review := ⟨1, true, none, none, none, 10, "tb", "bb"⟩

/-- Public reply review (to `vT`) of the orphaned-reply scenario. -/
def vR : Review := ⟨2, true, some 1, none, none, 11, "rt", "rb"⟩

/-- A reply comment whose `reply_to` target (pk 99) is not in the fetch
set. -/
def orphanComment : Comment := ⟨10, "orphan", some 99⟩

/-- The orphaned-reply database: one top-level public review, one public
reply review carrying a comment whose reply target was never fetched. -/
def orphanDB : DB := ⟨[vT, vR], [⟨2, orphanComment⟩]⟩

/-- C2 counterexample: on the concrete fetch set containing an orphaned
reply (its `reply_to` target missing), `get_all_review_comments` does not
return normally and does not drop the comment — the dict lookup
`comment_map[comment.reply_to_id]` raises `KeyError` on the missing
pk 99. -/
theorem get_all_orphan_counterexample :
    get_all_review_comments orphanDB = .error (.keyError 99) := by
  rfl

/-- C2 (amended): a fetched join row whose owning review is a reply-review
is never silently dropped when it is orphaned; reconstruction raises
instead — an `AssertionError` when the owning review's `base_reply_to`
target is not a top-level entry, a `KeyError` when the comment's `reply_to`
target is missing from the fetch set.  (The only silently dropped case is
a comment on a reply-review that is itself not a reply.) -/
theorem get_all_raises_on_orphaned_reply (db : DB) (jr : JoinRow) (parent : Review)
    (bid : Nat) (hjr : jr ∈ objsOf db)
    (hparent : alookup (pass1Of db).reviews_id_map jr.review_id = some parent)
    (hbase : parent.base_reply_to_id = some bid)
    (hcase :
      acontains (buildEntries (pass1Of db).public_reviews).2 bid = false ∨
      ∃ t, jr.comment.reply_to_id = some t ∧ acontains (comment_mapOf db) t = false) :
    ∃ e, get_all_review_comments db = .error e := by
  unfold get_all_review_comments
  cases hlt : linkFailure (pass1Of db).body_top_replies (pass1Of db).reviews_id_map with
  | some k => exact ⟨.keyError k, by simp [hlt]⟩
  | none =>
    cases hlb : linkFailure (pass1Of db).body_bottom_replies (pass1Of db).reviews_id_map with
    | some k => exact ⟨.keyError k, by simp [hlt, hlb]⟩
    | none =>
      have hfail : ∀ st, ∃ e,
          pass2Step (pass1Of db).reviews_id_map (buildEntries (pass1Of db).public_reviews).2
            (comment_mapOf db) st jr = .error e := by
        intro st
        simp only [pass2Step, hparent, hbase]
        by_cases h1 : acontains (buildEntries (pass1Of db).public_reviews).2 jr.review_id
        · exact ⟨.assertionError, by simp [h1]⟩
        · by_cases h2 : acontains (buildEntries (pass1Of db).public_reviews).2 bid
          · rcases hcase with hc | ⟨t, ht, hct⟩
            · simp [hc] at h2
            · exact ⟨.keyError t, by simp [h1, h2, ht, hct]⟩
          · exact ⟨.assertionError, by simp [h1, h2]⟩
      obtain ⟨e, he⟩ :=
        pass2_error_of_mem (pass1Of db).reviews_id_map
          (buildEntries (pass1Of db).public_reviews).2 (comment_mapOf db) jr hfail
          (objsOf db) ((buildEntries (pass1Of db).public_reviews).1, crepsInit db) hjr
      exact ⟨e, by simp [hlt, hlb, he]⟩

/-- C2 witness: the amended theorem applied to the concrete orphaned-reply
database. -/
theorem get_all_raises_on_orphaned_reply_witness :
    ∃ e, get_all_review_comments orphanDB = .error e :=
  get_all_raises_on_orphaned_reply orphanDB ⟨2, orphanComment⟩ vR 1
    (by decide) (by decide) rfl (Or.inr ⟨99, rfl, by decide⟩)

/-- Membership after a dict assignment: the new pair or an old one. -/
lemma ainsert_mem {α : Type} {m : List (Nat × α)} {k : Nat} {v : α} :
    ∀ p ∈ ainsert m k v, p ∈ m ∨ p = (k, v) := by
  induction m with
  | nil => intro p hp; simp [ainsert] at hp; exact Or.inr hp
  | cons q rest ih =>
    intro p hp
    by_cases hk : q.1 = k
    · simp only [ainsert, hk, if_pos rfl] at hp
      rcases List.mem_cons.mp hp with h | h
      · exact Or.inr h
      · exact Or.inl (List.mem_cons_of_mem _ h)
    · rw [show ainsert (q :: rest) k v = q :: ainsert rest k v by
        cases q; simp [ainsert, hk]] at hp
      rcases List.mem_cons.mp hp with h | h
      · exact Or.inl (h ▸ List.mem_cons_self _ _)
      · rcases ih p h with h' | h'
        · exact Or.inl (List.mem_cons_of_mem _ h')
        · exact Or.inr h'

/-- Every value stored after a multimap append was already stored or is the
appended element. -/
lemma mmAppend_mem {α : Type} {m : List (Nat × List α)} {k : Nat} {v : α} :
    ∀ p ∈ mmAppend m k v, ∀ x ∈ p.2, (∃ q ∈ m, x ∈ q.2) ∨ x = v := by
  induction m with
  | nil =>
    intro p hp x hx
    simp [mmAppend] at hp
    subst hp
    simp at hx
    exact Or.inr hx
  | cons q rest ih =>
    intro p hp x hx
    by_cases hk : q.1 = k
    · rw [show mmAppend (q :: rest) k v = (k, q.2 ++ [v]) :: rest by
        cases q; simp_all [mmAppend]] at hp
      rcases List.mem_cons.mp hp with h | h
      · subst h
        rcases List.mem_append.mp hx with h' | h'
        · exact Or.inl ⟨q, List.mem_cons_self _ _, h'⟩
        · exact Or.inr (List.mem_singleton.mp h')
      · exact Or.inl ⟨p, List.mem_cons_of_mem _ h, hx⟩
    · rw [show mmAppend (q :: rest) k v = q :: mmAppend rest k v by
        cases q; simp_all [mmAppend]] at hp
      rcases List.mem_cons.mp hp with h | h
      · exact Or.inl ⟨p, h ▸ List.mem_cons_self _ _, hx⟩
      · rcases ih p h x hx with ⟨q', hq', hx'⟩ | h'
        · exact Or.inl ⟨q', List.mem_cons_of_mem _ hq', hx'⟩
        · exact Or.inr h'

/-- A contained key has a pair in the list. -/
lemma acontains_exists {α : Type} {m : List (Nat × α)} {k : Nat} :
    acontains m k = true → ∃ p ∈ m, p.1 = k := by
  induction m with
  | nil => intro h; simp [acontains] at h
  | cons q rest ih =>
    intro h
    rw [show acontains (q :: rest) k = (decide (q.1 = k) || acontains rest k) by
      cases q; rfl] at h
    rcases Bool.or_eq_true_iff.mp h with h' | h'
    · exact ⟨q, List.mem_cons_self _ _, of_decide_eq_true h'⟩
    · obtain ⟨p, hp, hpk⟩ := ih h'
      exact ⟨p, List.mem_cons_of_mem _ hp, hpk⟩

/-- A successful dict lookup returns a stored pair. -/
lemma alookup_mem {α : Type} {m : List (Nat × α)} {k : Nat} {v : α} :
    alookup m k = some v → (k, v) ∈ m := by
  induction m with
  | nil => intro h; simp [alookup] at h
  | cons q rest ih =>
    intro h
    rw [show alookup (q :: rest) k = if q.1 = k then some q.2 else alookup rest k by
      cases q; rfl] at h
    by_cases hk : q.1 = k
    · rw [if_pos hk] at h
      injection h with h
      subst h
      rw [← hk]
      exact List.mem_cons_self _ _
    · rw [if_neg hk] at h
      exact List.mem_cons_of_mem _ (ih h)

/-- Membership after an in-place list update: an untouched element or the
image of a touched one. -/
lemma listModify_mem {α : Type} {f : α → α} :
    ∀ (l : List α) (i : Nat), ∀ x ∈ listModify l i f, x ∈ l ∨ ∃ y ∈ l, x = f y := by
  intro l
  induction l with
  | nil => intro i x hx; simp [listModify] at hx
  | cons a rest ih =>
    intro i x hx
    cases i with
    | zero =>
      rcases List.mem_cons.mp hx with h | h
      · exact Or.inr ⟨a, List.mem_cons_self _ _, h⟩
      · exact Or.inl (List.mem_cons_of_mem _ h)
    | succ n =>
      rcases List.mem_cons.mp hx with h | h
      · exact Or.inl (h ▸ List.mem_cons_self _ _)
      · rcases ih n x h with h' | ⟨y, hy, hxy⟩
        · exact Or.inl (List.mem_cons_of_mem _ h')
        · exact Or.inr ⟨y, List.mem_cons_of_mem _ hy, hxy⟩

/-- Invariant of the first pass: every review stored anywhere in the state
is public and satisfies `S` (origin in the processed rows). -/
def Pass1Inv (S : Review → Prop) (st : Pass1) : Prop :=
  (∀ r ∈ st.public_reviews, r.public = true ∧ S r) ∧
  (∀ p ∈ st.replies, ∀ r ∈ p.2, r.public = true ∧ S r) ∧
  (∀ p ∈ st.body_top_replies, ∀ r ∈ p.2, r.public = true ∧ S r) ∧
  (∀ p ∈ st.body_bottom_replies, ∀ r ∈ p.2, r.public = true ∧ S r) ∧
  (∀ p ∈ st.reviews_id_map, p.2.public = true ∧ p.2.pk = p.1 ∧ S p.2)

/-- One first-pass iteration preserves the invariant. -/
lemma pass1Step_inv {S : Review → Prop} {st : Pass1} {review : Review}
    (h : Pass1Inv S st) (hS : S review) : Pass1Inv S (pass1Step st review) := by
  obtain ⟨h1, h2, h3, h4, h5⟩ := h
  by_cases hpub : review.public
  · unfold pass1Step
    rw [if_pos hpub]
    have hpr : ∀ r ∈ st.public_reviews ++ [review], r.public = true ∧ S r := by
      intro r hr
      rcases List.mem_append.mp hr with h | h
      · exact h1 r h
      · rw [List.mem_singleton.mp h]; exact ⟨hpub, hS⟩
    have hmm : ∀ (m : List (Nat × List Review)) (k : Nat),
        (∀ p ∈ m, ∀ r ∈ p.2, r.public = true ∧ S r) →
        ∀ p ∈ mmAppend m k review, ∀ r ∈ p.2, r.public = true ∧ S r := by
      intro m k hm p hp r hr
      rcases mmAppend_mem p hp r hr with ⟨q, hq, hrq⟩ | h
      · exact hm q hq r hrq
      · rw [h]; exact ⟨hpub, hS⟩
    have hid : ∀ (m : List (Nat × Review)),
        (∀ p ∈ m, p.2.public = true ∧ p.2.pk = p.1 ∧ S p.2) →
        ∀ p ∈ ainsert m review.pk review, p.2.public = true ∧ p.2.pk = p.1 ∧ S p.2 := by
      intro m hm p hp
      rcases ainsert_mem p hp with h | h
      · exact hm p h
      · rw [h]; exact ⟨hpub, rfl, hS⟩
    cases hbase : review.base_reply_to_id <;>
      cases htop : review.body_top_reply_to_id <;>
        cases hbot : review.body_bottom_reply_to_id <;>
          simp only [hbase, htop, hbot] <;>
            exact ⟨hpr, by first
              | exact h2
              | exact fun p hp => hmm _ _ h2 p hp, by first
              | exact h3
              | exact fun p hp => hmm _ _ h3 p hp, by first
              | exact h4
              | exact fun p hp => hmm _ _ h4 p hp, fun p hp => hid _ h5 p hp⟩
  · unfold pass1Step
    rw [if_neg hpub]
    exact ⟨h1, h2, h3, h4, h5⟩

/-- The first pass over any row list preserves the invariant. -/
lemma pass1_fold_inv {S : Review → Prop} :
    ∀ (rs : List Review) (st : Pass1), Pass1Inv S st → (∀ r ∈ rs, S r) →
      Pass1Inv S (rs.foldl pass1Step st) := by
  intro rs
  induction rs with
  | nil => intro st h _; exact h
  | cons r rest ih =>
    intro st h hS
    exact ih (pass1Step st r)
      (pass1Step_inv h (hS r (List.mem_cons_self _ _)))
      (fun r' hr' => hS r' (List.mem_cons_of_mem _ hr'))

/-- The invariant established by the first pass over the fetched reviews. -/
lemma pass1Of_inv (db : DB) : Pass1Inv (· ∈ db.reviews) (pass1Of db) :=
  pass1_fold_inv db.reviews Pass1.init
    ⟨by simp [Pass1.init], by simp [Pass1.init], by simp [Pass1.init],
     by simp [Pass1.init], by simp [Pass1.init]⟩
    (fun _ h => h)

/-- Entries produced by `buildEntries` carry a review from the given list
and start with an empty comment bucket. -/
lemma buildEntries_mem {S : Review → Prop} :
    ∀ (pr : List Review) (st : List Entry × List (Nat × Nat)),
      (∀ r ∈ pr, S r) → (∀ e ∈ st.1, S e.review ∧ e.diff_comments = []) →
      ∀ e ∈ (pr.foldl buildEntriesStep st).1, S e.review ∧ e.diff_comments = [] := by
  intro pr
  induction pr with
  | nil => intro st _ h e he; exact h e he
  | cons r rest ih =>
    intro st hS h
    refine ih (buildEntriesStep st r) (fun r' hr' => hS r' (List.mem_cons_of_mem _ hr')) ?_
    intro e he
    unfold buildEntriesStep at he
    by_cases hrep : r.is_reply
    · rw [if_neg (by simpa using hrep)] at he
      exact h e he
    · rw [if_pos (by simpa using hrep)] at he
      rcases List.mem_append.mp he with h' | h'
      · exact h e h'
      · rw [List.mem_singleton.mp h']
        exact ⟨hS r (List.mem_cons_self _ _), rfl⟩

/-- Invariant of the second pass: entry reviews satisfy `S`; every comment
attached to an entry bucket or to a reply list satisfies `A`. -/
def Pass2Inv (S : Review → Prop) (A : Comment → Prop)
    (st : List Entry × List (Nat × List Comment)) : Prop :=
  (∀ e ∈ st.1, S e.review) ∧
  (∀ e ∈ st.1, ∀ c ∈ e.diff_comments, A c) ∧
  (∀ p ∈ st.2, ∀ c ∈ p.2, A c)

/-- A successful second-pass iteration preserves the invariant. -/
lemma pass2Step_inv {idmap : List (Nat × Review)} {emap : List (Nat × Nat)}
    {cmap : List (Nat × Comment)} {S : Review → Prop} {A : Comment → Prop}
    {st st' : List Entry × List (Nat × List Comment)} {jr : JoinRow}
    (hok : pass2Step idmap emap cmap st jr = .ok st')
    (hA : A jr.comment) (h : Pass2Inv S A st) : Pass2Inv S A st' := by
  obtain ⟨h1, h2, h3⟩ := h
  unfold pass2Step at hok
  cases hpar : alookup idmap jr.review_id with
  | none => rw [hpar] at hok; simp at hok
  | some parent =>
    rw [hpar] at hok
    simp only at hok
    cases hbase : parent.base_reply_to_id with
    | some bid =>
      rw [hbase] at hok
      simp only at hok
      by_cases hc1 : acontains emap jr.review_id
      · rw [if_pos hc1] at hok; cases hok
      · rw [if_neg hc1] at hok
        by_cases hc2 : acontains emap bid
        · rw [if_neg (not_not_intro hc2)] at hok
          cases hrt : jr.comment.reply_to_id with
          | some t =>
            rw [hrt] at hok
            simp only at hok
            by_cases hc3 : acontains cmap t
            · rw [if_pos hc3] at hok
              injection hok with hok
              subst hok
              refine ⟨h1, h2, ?_⟩
              intro p hp c hc
              rcases mmAppend_mem p hp c hc with ⟨q, hq, hcq⟩ | h'
              · exact h3 q hq c hcq
              · rw [h']; exact hA
            · rw [if_neg hc3] at hok; cases hok
          | none =>
            rw [hrt] at hok
            simp only at hok
            injection hok with hok
            subst hok
            exact ⟨h1, h2, h3⟩
        · rw [if_pos (by simpa using hc2)] at hok; cases hok
    | none =>
      rw [hbase] at hok
      simp only at hok
      by_cases hpub : parent.public
      · rw [if_pos hpub] at hok
        cases hidx : alookup emap jr.review_id with
        | none => rw [hidx] at hok; simp at hok
        | some idx =>
          rw [hidx] at hok
          simp only at hok
          injection hok with hok
          subst hok
          refine ⟨?_, ?_, h3⟩
          · intro e he
            rcases listModify_mem st.1 idx e he with h' | ⟨y, hy, hey⟩
            · exact h1 e h'
            · rw [hey]; exact h1 y hy
          · intro e he c hc
            rcases listModify_mem st.1 idx e he with h' | ⟨y, hy, hey⟩
            · exact h2 e h' c hc
            · rw [hey] at hc
              rcases List.mem_append.mp hc with h' | h'
              · exact h2 y hy c h'
              · rw [List.mem_singleton.mp h']; exact hA
      · rw [if_neg hpub] at hok
        injection hok with hok
        subst hok
        exact ⟨h1, h2, h3⟩

/-- A successful second pass preserves the invariant over the whole row
list. -/
lemma pass2_inv {idmap : List (Nat × Review)} {emap : List (Nat × Nat)}
    {cmap : List (Nat × Comment)} {S : Review → Prop} {A : Comment → Prop} :
    ∀ (l : List JoinRow) (st st' : List Entry × List (Nat × List Comment)),
      (∀ jr ∈ l, A jr.comment) → Pass2Inv S A st →
      pass2 idmap emap cmap st l = .ok st' → Pass2Inv S A st' := by
  intro l
  induction l with
  | nil =>
    intro st st' _ h hok
    unfold pass2 at hok
    injection hok with hok
    exact hok ▸ h
  | cons jr rest ih =>
    intro st st' hA h hok
    unfold pass2 at hok
    cases hstep : pass2Step idmap emap cmap st jr with
    | error e => rw [hstep] at hok; cases hok
    | ok st₁ =>
      rw [hstep] at hok
      exact ih st₁ st' (fun j hj => hA j (List.mem_cons_of_mem _ hj))
        (pass2Step_inv hstep (hA jr (List.mem_cons_self _ _)) h) hok

/-- All reply lists start empty in the comment-map initialisation pass. -/
lemma crepsInit_values (db : DB) : ∀ p ∈ crepsInit db, p.2 = ([] : List Comment) := by
  unfold crepsInit
  generalize objsOf db = l
  have : ∀ (l : List JoinRow) (m : List (Nat × List Comment)),
      (∀ p ∈ m, p.2 = ([] : List Comment)) →
      ∀ p ∈ l.foldl (fun m jr => ainsert m jr.comment.pk ([] : List Comment)) m, p.2 = [] := by
    intro l
    induction l with
    | nil => intro m hm p hp; exact hm p hp
    | cons jr rest ih =>
      intro m hm
      refine ih _ ?_
      intro p hp
      rcases ainsert_mem p hp with h | h
      · exact hm p h
      · rw [h]
  exact this l [] (by simp)

/-- C3: a non-public review is invisible to reconstruction — it is never
the review of a returned entry, never occurs in the base-reply multimap or
in a body-top/body-bottom reply list, and every comment attached to an
entry bucket or to a comment's reply list came through a join row owned by
a public review of the fetch set. -/
theorem nonpublic_reviews_invisible (db : DB) (res : ReconResult)
    (h : get_all_review_comments db = .ok res) :
    (∀ e ∈ res.entries, e.review.public = true) ∧
    (∀ p ∈ res.replies, ∀ r ∈ p.2, r.public = true) ∧
    (∀ p ∈ res.body_top_replies, ∀ r ∈ p.2, r.public = true) ∧
    (∀ p ∈ res.body_bottom_replies, ∀ r ∈ p.2, r.public = true) ∧
    (∀ e ∈ res.entries, ∀ c ∈ e.diff_comments,
      ∃ jr ∈ db.joinRows, jr.comment = c ∧
        ∃ r ∈ db.reviews, r.pk = jr.review_id ∧ r.public = true) ∧
    (∀ p ∈ res.comment_replies, ∀ c ∈ p.2,
      ∃ jr ∈ db.joinRows, jr.comment = c ∧
        ∃ r ∈ db.reviews, r.pk = jr.review_id ∧ r.public = true) := by
  have hp1 := pass1Of_inv db
  unfold get_all_review_comments at h
  simp only at h
  cases hlt : linkFailure (pass1Of db).body_top_replies (pass1Of db).reviews_id_map with
  | some k => rw [hlt] at h; simp at h
  | none =>
    rw [hlt] at h
    simp only at h
    cases hlb : linkFailure (pass1Of db).body_bottom_replies (pass1Of db).reviews_id_map with
    | some k => rw [hlb] at h; simp at h
    | none =>
      rw [hlb] at h
      simp only at h
      cases hp2 : pass2 (pass1Of db).reviews_id_map
          (buildEntries (pass1Of db).public_reviews).2 (comment_mapOf db)
          ((buildEntries (pass1Of db).public_reviews).1, crepsInit db) (objsOf db) with
      | error e => rw [hp2] at h; simp at h
      | ok st' =>
        rw [hp2] at h
        simp only at h
        injection h with h
        subst h
        have hentries0 :
            ∀ e ∈ (buildEntries (pass1Of db).public_reviews).1,
              e.review.public = true ∧ e.diff_comments = [] := by
          unfold buildEntries
          exact buildEntries_mem (pass1Of db).public_reviews ([], [])
            (fun r hr => (hp1.1 r hr).1) (by simp)
        have hinv : Pass2Inv (fun r => r.public = true)
            (fun c => ∃ jr ∈ objsOf db, jr.comment = c) st' := by
          refine pass2_inv (objsOf db)
            ((buildEntries (pass1Of db).public_reviews).1, crepsInit db) st'
            (fun jr hjr => ⟨jr, hjr, rfl⟩) ⟨?_, ?_, ?_⟩ hp2
          · exact fun e he => (hentries0 e he).1
          · intro e he c hc
            rw [(hentries0 e he).2] at hc
            cases hc
          · intro p hp c hc
            rw [crepsInit_values db p hp] at hc
            cases hc
        have hconv : ∀ c, (∃ jr ∈ objsOf db, jr.comment = c) →
            ∃ jr ∈ db.joinRows, jr.comment = c ∧
              ∃ r ∈ db.reviews, r.pk = jr.review_id ∧ r.public = true := by
          rintro c ⟨jr, hjr, rfl⟩
          have hmem := List.mem_filter.mp hjr
          obtain ⟨p, hp, hpk⟩ := acontains_exists hmem.2
          have hid := hp1.2.2.2.2 p hp
          exact ⟨jr, hmem.1, rfl, p.2, hid.2.2, hpk ▸ hid.2.1, hid.1⟩
        refine ⟨hinv.1, ?_, ?_, ?_, ?_, ?_⟩
        · exact fun p hp r hr => (hp1.2.1 p hp r hr).1
        · exact fun p hp r hr => (hp1.2.2.1 p hp r hr).1
        · exact fun p hp r hr => (hp1.2.2.2.1 p hp r hr).1
        · exact fun e he c hc => hconv c (hinv.2.1 e he c hc)
        · exact fun p hp c hc => hconv c (hinv.2.2 p hp c hc)

/-- A single-review database (one public top-level review, no comments)
used to witness the invisibility theorem. -/
def pubOnlyDB : DB := ⟨[vT], []⟩

/-- The reconstruction result for `pubOnlyDB`. -/
def pubOnlyRes : ReconResult := ⟨[⟨vT, [], 10⟩], [], [], [], [], []⟩

/-- C3 witness: the invisibility theorem applied to the concrete
single-review database and its one entry. -/
theorem nonpublic_reviews_invisible_witness :
    (⟨vT, [], 10⟩ : Entry).review.public = true :=
  (nonpublic_reviews_invisible pubOnlyDB pubOnlyRes (by rfl)).1
    ⟨vT, [], 10⟩ (by decide)

/-- Effect of one first-pass iteration on a public reply review with no
body-reply links. -/
lemma pass1Step_reply (st : Pass1) (r : Review) (t : Nat)
    (hpub : r.public = true) (hbase : r.base_reply_to_id = some t)
    (htop : r.body_top_reply_to_id = none) (hbot : r.body_bottom_reply_to_id = none) :
    pass1Step st r =
      { st with
        public_reviews := st.public_reviews ++ [r]
        replies := mmAppend st.replies t r
        reply_timestamps := tsUpdate st.reply_timestamps t r.timestamp
        reviews_id_map := ainsert st.reviews_id_map r.pk r } := by
  unfold pass1Step
  rw [hpub, hbase, htop, hbot]
  rfl

/-- Effect of one first-pass iteration on a public top-level review with no
body-reply links. -/
lemma pass1Step_toplevel (st : Pass1) (r : Review)
    (hpub : r.public = true) (hbase : r.base_reply_to_id = none)
    (htop : r.body_top_reply_to_id = none) (hbot : r.body_bottom_reply_to_id = none) :
    pass1Step st r =
      { st with
        public_reviews := st.public_reviews ++ [r]
        reviews_id_map := ainsert st.reviews_id_map r.pk r } := by
  unfold pass1Step
  rw [hpub, hbase, htop, hbot]
  rfl

/-- Effect of the first pass on a run of public reply reviews of a common
target `t`: they are appended to the public list and to the base-reply
multimap at `t`, and the body-reply multimaps are untouched. -/
lemma pass1_fold_replies (t : Nat) :
    ∀ (rs : List Review) (st : Pass1),
      (∀ r ∈ rs, r.public = true ∧ r.base_reply_to_id = some t ∧
        r.body_top_reply_to_id = none ∧ r.body_bottom_reply_to_id = none) →
      (rs.foldl pass1Step st).public_reviews = st.public_reviews ++ rs ∧
      (rs.foldl pass1Step st).replies =
        rs.foldl (fun m r => mmAppend m t r) st.replies ∧
      (rs.foldl pass1Step st).body_top_replies = st.body_top_replies ∧
      (rs.foldl pass1Step st).body_bottom_replies = st.body_bottom_replies := by
  intro rs
  induction rs with
  | nil => intro st _; simp
  | cons r rest ih =>
    intro st hall
    obtain ⟨hpub, hbase, htop, hbot⟩ := hall r (List.mem_cons_self _ _)
    have hrest := fun r' hr' => hall r' (List.mem_cons_of_mem _ hr')
    rw [List.foldl_cons, pass1Step_reply st r t hpub hbase htop hbot]
    obtain ⟨ih1, ih2, ih3, ih4⟩ := ih _ hrest
    refine ⟨?_, ?_, by simpa using ih3, by simpa using ih4⟩
    · rw [ih1]; simp
    · rw [ih2]; rfl

/-- Values accumulated at a key by a multimap append. -/
lemma mmGet_mmAppend (m : List (Nat × List α)) (k : Nat) (v : α) :
    mmGet (mmAppend m k v) k = mmGet m k ++ [v] := by
  induction m with
  | nil => simp [mmAppend, mmGet, alookup]
  | cons q rest ih =>
    obtain ⟨qk, qv⟩ := q
    by_cases hk : qk = k
    · subst hk
      simp [mmAppend, mmGet, alookup]
    · rw [show mmAppend ((qk, qv) :: rest) k v = (qk, qv) :: mmAppend rest k v by
        simp [mmAppend, hk]]
      rw [show mmGet ((qk, qv) :: mmAppend rest k v) k = mmGet (mmAppend rest k v) k by
        simp [mmGet, alookup, hk]]
      rw [show mmGet ((qk, qv) :: rest) k = mmGet rest k by
        simp [mmGet, alookup, hk]]
      exact ih

/-- Values accumulated at a key by a run of multimap appends. -/
lemma mmGet_fold_mmAppend (t : Nat) :
    ∀ (rs : List Review) (m : List (Nat × List Review)),
      mmGet (rs.foldl (fun m r => mmAppend m t r) m) t = mmGet m t ++ rs := by
  intro rs
  induction rs with
  | nil => intro m; simp
  | cons r rest ih =>
    intro m
    rw [List.foldl_cons, ih (mmAppend m t r), mmGet_mmAppend]
    simp

/-- A reply review is skipped by entry construction. -/
lemma buildEntriesStep_reply (st : List Entry × List (Nat × Nat)) (r : Review)
    (h : r.is_reply = true) : buildEntriesStep st r = st := by
  simp [buildEntriesStep, h]

/-- A run of reply reviews is skipped by entry construction. -/
lemma buildEntries_fold_replies :
    ∀ (rs : List Review) (st : List Entry × List (Nat × Nat)),
      (∀ r ∈ rs, r.is_reply = true) → rs.foldl buildEntriesStep st = st := by
  intro rs
  induction rs with
  | nil => intro st _; rfl
  | cons r rest ih =>
    intro st hall
    rw [List.foldl_cons, buildEntriesStep_reply st r (hall r (List.mem_cons_self _ _))]
    exact ih st (fun r' hr' => hall r' (List.mem_cons_of_mem _ hr'))

/-- C4: on a fetch set consisting of exactly one public top-level review
`T` and otherwise only public replies to it (no body-reply links, no
comments), reconstruction succeeds with exactly one entry — `T`'s — and the
base-reply multimap holds all the replies under `T`'s pk in fetch order. -/
theorem one_entry_and_fetch_ordered_replies (pre post : List Review) (T : Review)
    (hall : ∀ r ∈ pre ++ post, r.public = true ∧ r.base_reply_to_id = some T.pk ∧
      r.body_top_reply_to_id = none ∧ r.body_bottom_reply_to_id = none)
    (hpub : T.public = true) (hbase : T.base_reply_to_id = none)
    (htop : T.body_top_reply_to_id = none) (hbot : T.body_bottom_reply_to_id = none) :
    ∃ res, get_all_review_comments ⟨pre ++ T :: post, []⟩ = .ok res ∧
      res.entries = [⟨T, [], T.timestamp⟩] ∧
      mmGet res.replies T.pk = pre ++ post := by
  have hallpre : ∀ r ∈ pre, r.public = true ∧ r.base_reply_to_id = some T.pk ∧
      r.body_top_reply_to_id = none ∧ r.body_bottom_reply_to_id = none :=
    fun r hr => hall r (List.mem_append_left _ hr)
  have hallpost : ∀ r ∈ post, r.public = true ∧ r.base_reply_to_id = some T.pk ∧
      r.body_top_reply_to_id = none ∧ r.body_bottom_reply_to_id = none :=
    fun r hr => hall r (List.mem_append_right _ hr)
  have hrep_pre : ∀ r ∈ pre, r.is_reply = true := by
    intro r hr
    unfold Review.is_reply
    rw [(hallpre r hr).2.1]
    rfl
  have hrep_post : ∀ r ∈ post, r.is_reply = true := by
    intro r hr
    unfold Review.is_reply
    rw [(hallpost r hr).2.1]
    rfl
  obtain ⟨hpre1, hpre2, hpre3, hpre4⟩ := pass1_fold_replies T.pk pre Pass1.init hallpre
  have hT := pass1Step_toplevel (pre.foldl pass1Step Pass1.init) T hpub hbase htop hbot
  obtain ⟨hpost1, hpost2, hpost3, hpost4⟩ :=
    pass1_fold_replies T.pk post (pass1Step (pre.foldl pass1Step Pass1.init) T) hallpost
  have hpass1 : pass1Of ⟨pre ++ T :: post, []⟩ =
      post.foldl pass1Step (pass1Step (pre.foldl pass1Step Pass1.init) T) := by
    show (pre ++ T :: post).foldl pass1Step Pass1.init = _
    rw [List.foldl_append]
    rfl
  have e_public : (pass1Of ⟨pre ++ T :: post, []⟩).public_reviews = pre ++ T :: post := by
    rw [hpass1, hpost1, hT]
    rw [show ({ pre.foldl pass1Step Pass1.init with
        public_reviews := (pre.foldl pass1Step Pass1.init).public_reviews ++ [T]
        reviews_id_map :=
          ainsert (pre.foldl pass1Step Pass1.init).reviews_id_map T.pk T } : Pass1).public_reviews
      = (pre.foldl pass1Step Pass1.init).public_reviews ++ [T] from rfl]
    rw [hpre1]
    simp [Pass1.init]
  have e_top : (pass1Of ⟨pre ++ T :: post, []⟩).body_top_replies = [] := by
    rw [hpass1, hpost3, hT]
    rw [show ({ pre.foldl pass1Step Pass1.init with
        public_reviews := (pre.foldl pass1Step Pass1.init).public_reviews ++ [T]
        reviews_id_map :=
          ainsert (pre.foldl pass1Step Pass1.init).reviews_id_map T.pk T } : Pass1).body_top_replies
      = (pre.foldl pass1Step Pass1.init).body_top_replies from rfl]
    rw [hpre3]
    rfl
  have e_bot : (pass1Of ⟨pre ++ T :: post, []⟩).body_bottom_replies = [] := by
    rw [hpass1, hpost4, hT]
    rw [show ({ pre.foldl pass1Step Pass1.init with
        public_reviews := (pre.foldl pass1Step Pass1.init).public_reviews ++ [T]
        reviews_id_map :=
          ainsert (pre.foldl pass1Step Pass1.init).reviews_id_map T.pk T } : Pass1).body_bottom_replies
      = (pre.foldl pass1Step Pass1.init).body_bottom_replies from rfl]
    rw [hpre4]
    rfl
  have e_replies : mmGet (pass1Of ⟨pre ++ T :: post, []⟩).replies T.pk = pre ++ post := by
    rw [hpass1, hpost2, hT]
    rw [show ({ pre.foldl pass1Step Pass1.init with
        public_reviews := (pre.foldl pass1Step Pass1.init).public_reviews ++ [T]
        reviews_id_map :=
          ainsert (pre.foldl pass1Step Pass1.init).reviews_id_map T.pk T } : Pass1).replies
      = (pre.foldl pass1Step Pass1.init).replies from rfl]
    rw [mmGet_fold_mmAppend, hpre2, mmGet_fold_mmAppend]
    simp [Pass1.init, mmGet, alookup]
  have e_entries :
      (buildEntries (pass1Of ⟨pre ++ T :: post, []⟩).public_reviews).1 =
        [⟨T, [], T.timestamp⟩] := by
    rw [e_public]
    unfold buildEntries
    rw [List.foldl_append, buildEntries_fold_replies pre ([], []) hrep_pre, List.foldl_cons]
    rw [show buildEntriesStep ([], []) T =
        ([(⟨T, [], T.timestamp⟩ : Entry)], ainsert [] T.pk 0) by
      unfold buildEntriesStep Review.is_reply
      rw [hbase]
      rfl]
    rw [buildEntries_fold_replies post _ hrep_post]
  refine ⟨⟨(buildEntries (pass1Of ⟨pre ++ T :: post, []⟩).public_reviews).1,
    (pass1Of ⟨pre ++ T :: post, []⟩).replies,
    (pass1Of ⟨pre ++ T :: post, []⟩).reply_timestamps, [], [], []⟩, ?_, e_entries, e_replies⟩
  unfold get_all_review_comments
  simp only [e_top, e_bot]
  rfl

/-- C4 witness: the single-top-level theorem at the concrete fetch set
`[vT, vR]` (one public top-level review, one public reply). -/
theorem one_entry_and_fetch_ordered_replies_witness :
    ∃ res, get_all_review_comments ⟨[] ++ vT :: [vR], []⟩ = .ok res ∧
      res.entries = [⟨vT, [], vT.timestamp⟩] ∧
      mmGet res.replies vT.pk = [] ++ [vR] :=
  one_entry_and_fetch_ordered_replies [] [vR] vT (by decide) rfl rfl rfl rfl
